import Mathlib

/-!
Shallow embedding of the neopixel_laboratory command relay.

The embedding covers, from `src/app/app/messaging.py`, the frame codec
(`encode_msg_size`, `decode_msg_size`, `create_msg`, `get_message`) and the
command serialization used by `write_command` / `read_command` (Python
`json.dumps` / `json.loads` of the `{"command": ..., "args": ...,
"kwargs": ...}` schema, UTF-8 encoded); from
`src/app/neopixel_daemon/commands/command.py`, the `Command.build_command`
dispatcher over the subclass list; from
`src/app/neopixel_daemon/commands/set_light.py` and `off_command.py`, the
`execute` bodies over an explicit actuator state; and from
`src/app/neopixel_daemon/main.py`, the read-dispatch loop of `main`.

Python byte strings are `List Nat` (each element a byte value), Python `str`
is Lean `String` (sequences of Unicode scalar values), Python exceptions are
the explicit `PyErr` error type threaded through `Except`, and the actuator
is an explicit state record together with a trace of driver operations.
-/

/-- Model of the Python exceptions raised by the embedded code paths. -/
inductive PyErr where
  | keyError (key : String)
  | valueError (msg : String)
  | structError (msg : String)
  | jsonError (msg : String)
  deriving DecidableEq, Repr

/-- `MAX_MESSAGE_SIZE` from `settings.py`: message size is stored in 4 bytes. -/
def MAX_MESSAGE_SIZE : Nat := 4294967295

/-- `encode_msg_size` (messaging.py): `struct.pack("<I", size)`, the 4-byte
little-endian encoding; `struct.error` if the value does not fit an unsigned
32-bit field. -/
def encode_msg_size (size : Nat) : Except PyErr (List Nat) :=
  if size < 2 ^ 32 then
    .ok [size % 256, size / 256 % 256, size / 256 ^ 2 % 256, size / 256 ^ 3 % 256]
  else
    .error (.structError "argument out of range")

/-- `decode_msg_size` (messaging.py): `struct.unpack("<I", size_bytes)[0]`;
`struct.error` unless given exactly 4 bytes. -/
def decode_msg_size (size_bytes : List Nat) : Except PyErr Nat :=
  match size_bytes with
  | [b0, b1, b2, b3] => .ok (b0 + b1 * 256 + b2 * 256 ^ 2 + b3 * 256 ^ 3)
  | _ => .error (.structError "unpack requires a buffer of 4 bytes")

/-- `create_msg` (messaging.py): length check against `MAX_MESSAGE_SIZE`,
then the 4-byte size prefix followed by the content. -/
def create_msg (content : List Nat) : Except PyErr (List Nat) :=
  if content.length > MAX_MESSAGE_SIZE then
    .error (.valueError "Message is too long")
  else
    match encode_msg_size content.length with
    | .ok sb => .ok (sb ++ content)
    | .error e => .error e

/-- Python `file.read(n)` against the byte stream the writing peer delivers
before closing: returns up to `n` bytes (fewer only at end of stream) and the
remaining stream. -/
def streamRead (stream : List Nat) (n : Nat) : List Nat × List Nat :=
  (stream.take n, stream.drop n)

/-- `get_message` (messaging.py): read 4 bytes, decode them as the message
size, then read that many bytes and return them.  The argument is the whole
byte stream delivered on the pipe before the writer closes. -/
def get_message (stream : List Nat) : Except PyErr (List Nat) :=
  let (size_bytes, rest) := streamRead stream 4
  match decode_msg_size size_bytes with
  | .ok msg_size => .ok ((streamRead rest msg_size).1)
  | .error e => .error e

/-- Value of a list of decimal digit characters. -/
def digitsVal (ds : List Char) : Nat :=
  ds.foldl (fun a c => a * 10 + (c.toNat - 48)) 0

/-- Nonempty all-digit strings and their value; the digit core of Python
`int(s)` with base 10. -/
def pyIntDigits (ds : List Char) : Option Nat :=
  if ds ≠ [] ∧ ds.all Char.isDigit then some (digitsVal ds) else none

/-- Model of Python `int(s)` (base 10, as called in `_get_color`): an
optional single sign followed by one or more decimal digits; anything else
raises `ValueError`.  (The modelled subset omits surrounding whitespace and
digit-group underscores, which no input in this system uses.) -/
def pyInt (cs : List Char) : Option Int :=
  match cs with
  | [] => none
  | c :: rest =>
    if c = '-' then (pyIntDigits rest).map (fun n => -(n : Int))
    else if c = '+' then (pyIntDigits rest).map (fun n => (n : Int))
    else (pyIntDigits (c :: rest)).map (fun n => (n : Int))

/-- Python `str.split(sep)` for a one-character separator. -/
def splitOnChar (sep : Char) (cs : List Char) : List (List Char) :=
  match cs with
  | [] => [[]]
  | c :: rest =>
    if c = sep then
      [] :: splitOnChar sep rest
    else
      match splitOnChar sep rest with
      | [] => [[c]]
      | g :: gs => (c :: g) :: gs

/-- Model of Python `float(s)` as used for the brightness argument,
restricted to an optional sign, decimal digits, and at most one decimal
point, read as an exact rational (the binary rounding of the Python float is
not modelled; no claim depends on it). -/
def pyFloatDigits (cs : List Char) : Option ℚ :=
  match splitOnChar '.' cs with
  | [ip] => (pyIntDigits ip).map (fun n => (n : ℚ))
  | [ip, fp] =>
    if (ip ++ fp) ≠ [] ∧ (ip ++ fp).all Char.isDigit then
      some ((digitsVal ip : ℚ) + (digitsVal fp : ℚ) / (10 : ℚ) ^ fp.length)
    else
      none
  | _ => none

/-- Model of Python `float(s)` (sign handling). -/
def pyFloat (cs : List Char) : Option ℚ :=
  match cs with
  | [] => none
  | c :: rest =>
    if c = '-' then (pyFloatDigits rest).map (fun q => -q)
    else if c = '+' then pyFloatDigits rest
    else pyFloatDigits (c :: rest)

/-- `SetLightCommand._get_color` (set_light.py).  The hex branch is
`int("0x" + color[2:4])` etc.: `int` is called with its default base 10, so
the slice is prefixed with the literal characters `0x` and handed to the
base-10 parser.  The decimal branch is
`[int(val) for val in color.split("-")]` unpacked into three components
(`ValueError` on a bad literal or a component count other than three). -/
def getColorChars (color : List Char) : Except PyErr (Int × Int × Int) :=
  if color.take 2 = ['0', 'x'] then
    match pyInt ('0' :: 'x' :: (color.drop 2).take 2) with
    | none => .error (.valueError "invalid literal for int() with base 10")
    | some r =>
      match pyInt ('0' :: 'x' :: (color.drop 4).take 2) with
      | none => .error (.valueError "invalid literal for int() with base 10")
      | some g =>
        match pyInt ('0' :: 'x' :: (color.drop 6).take 2) with
        | none => .error (.valueError "invalid literal for int() with base 10")
        | some b => .ok (r, g, b)
  else if color.contains '-' then
    match (splitOnChar '-' color).mapM pyInt with
    | none => .error (.valueError "invalid literal for int() with base 10")
    | some [r, g, b] => .ok (r, g, b)
    | some _ => .error (.valueError "values to unpack")
  else
    .error (.valueError ("Cannot parse color from string: " ++ String.mk color))

/-- `_get_color` on a Python `str`. -/
def get_color (color : String) : Except PyErr (Int × Int × Int) :=
  getColorChars color.data

/-- The command envelope: the decoded `{command, args, kwargs}` schema of
`messaging.py` (`COMMAND_NAME`, `COMMAND_POSITIONAL_ARGUMENTS`,
`COMMAND_KEYWORD_ARGUMENTS`).  `kwargs` models the Python dict as its
insertion-ordered key/value pairs. -/
structure Envelope where
  name : String
  args : List String
  kwargs : List (String × String)
  deriving DecidableEq, Repr

/-- Python dict item access `kwargs[key]`: `KeyError` when absent. -/
def dictGet (kwargs : List (String × String)) (key : String) : Except PyErr String :=
  match kwargs.find? (fun p => p.1 == key) with
  | some p => .ok p.2
  | none => .error (.keyError key)

/-- `MAX_NUM_PIXELS` from `settings.py`. -/
def MAX_NUM_PIXELS : Nat := 36

/-- One operation issued to the neopixel driver: `pixels.fill(color)` or the
buffer flush `pixels.show()`. -/
inductive ActuatorOp where
  | fill (color : Int × Int × Int)
  | flush
  deriving DecidableEq, Repr

/-- Observable actuator state: the colors the strip displays and the
brightness of the most recently constructed `NeoPixel` object. -/
structure ActuatorState where
  displayed : List (Int × Int × Int)
  brightness : ℚ
  deriving DecidableEq, Repr

/-- The three command variants (`Command` subclasses) with the constructor
arguments `(args, kwargs)` they are built with. -/
inductive Cmd where
  | off (args : List String) (kwargs : List (String × String))
  | set (args : List String) (kwargs : List (String × String))
  | echo (args : List String) (kwargs : List (String × String))
  deriving DecidableEq, Repr

/-- `OffCommand.execute` (off_command.py): constructs
`NeoPixel(PIXEL_PIN, MAX_NUM_PIXELS)` (default `brightness=1.0`, default
`auto_write=True`) and calls `pixels.fill((0, 0, 0))`, which writes out
immediately under `auto_write`. -/
def executeOff (st : ActuatorState) : Except PyErr ActuatorState × List ActuatorOp :=
  (.ok { st with
          displayed := List.replicate MAX_NUM_PIXELS (0, 0, 0)
          brightness := 1 },
   [.fill (0, 0, 0)])

/-- `SetLightCommand.execute` (set_light.py), in source order:
`float(self.kwargs["brightness"])`, then
`self._get_color(self.kwargs["color"])`, then
`NeoPixel(..., brightness=brightness, auto_write=False)`, `fill(color)`,
`show()`.  An exception leaves the actuator untouched with no operation
issued.  The returned trace lists the driver operations in order. -/
def executeSet (kwargs : List (String × String)) (st : ActuatorState) :
    Except PyErr ActuatorState × List ActuatorOp :=
  match dictGet kwargs "brightness" with
  | .error e => (.error e, [])
  | .ok bstr =>
    match pyFloat bstr.data with
    | none => (.error (.valueError "could not convert string to float"), [])
    | some b =>
      match dictGet kwargs "color" with
      | .error e => (.error e, [])
      | .ok cstr =>
        match getColorChars cstr.data with
        | .error e => (.error e, [])
        | .ok color =>
          (.ok { st with
                  displayed := List.replicate MAX_NUM_PIXELS color
                  brightness := b },
           [.fill color, .flush])

/-- `execute` of a built command: `EchoCommand.execute` only logs. -/
def executeCmd (c : Cmd) (st : ActuatorState) : Except PyErr ActuatorState × List ActuatorOp :=
  match c with
  | .off _ _ => executeOff st
  | .set _ kwargs => executeSet kwargs st
  | .echo _ _ => (.ok st, [])

/-- One registered `Command` subclass: its `command_name()` and its
constructor. -/
structure CommandVariant where
  cname : String
  make : List String → List (String × String) → Cmd

/-- `Command.__subclasses__()` in definition order (command.py imports
`OffCommand` then `SetLightCommand`, then defines `EchoCommand`). -/
def commandSubclasses : List CommandVariant :=
  [⟨"off", Cmd.off⟩, ⟨"set", Cmd.set⟩, ⟨"echo", Cmd.echo⟩]

/-- The subclass scan of `Command.build_command` (command.py): the first
subclass whose `command_name()` equals the envelope's name is constructed
with the envelope's args and kwargs; if none matches,
`ValueError(f"Cannot find command named: \x7bcommand_name\x7d")`. -/
def buildCommandWith (subs : List CommandVariant) (env : Envelope) : Except PyErr Cmd :=
  match subs with
  | [] => .error (.valueError ("Cannot find command named: " ++ env.name))
  | v :: rest =>
    if v.cname = env.name then .ok (v.make env.args env.kwargs)
    else buildCommandWith rest env

/-- `Command.build_command` over the actual subclass list. -/
def build_command (env : Envelope) : Except PyErr Cmd :=
  buildCommandWith commandSubclasses env

/-- Lowercase hexadecimal digit character, Python `"%x"`. -/
def hexDigitChar (d : Nat) : Char :=
  if d < 10 then Char.ofNat (48 + d) else Char.ofNat (87 + d)

/-- Four lowercase hexadecimal digits, Python `"\\u%04x"` without the prefix. -/
def hex4 (n : Nat) : List Char :=
  [hexDigitChar (n / 4096 % 16), hexDigitChar (n / 256 % 16),
   hexDigitChar (n / 16 % 16), hexDigitChar (n % 16)]

/-- The escape of one character in `json.dumps` with its default
`ensure_ascii=True` (stdlib `py_encode_basestring_ascii`): backslash and
quote escapes, the five named control escapes, printable ASCII kept literal,
and every other code point as `\uXXXX`, split into a surrogate pair above
`0xFFFF`. -/
def escapeChar (c : Char) : List Char :=
  if c = '\\' then ['\\', '\\']
  else if c = '"' then ['\\', '"']
  else if c = Char.ofNat 8 then ['\\', 'b']
  else if c = Char.ofNat 9 then ['\\', 't']
  else if c = Char.ofNat 10 then ['\\', 'n']
  else if c = Char.ofNat 12 then ['\\', 'f']
  else if c = Char.ofNat 13 then ['\\', 'r']
  else if 0x20 ≤ c.toNat ∧ c.toNat ≤ 0x7e then [c]
  else if c.toNat < 0x10000 then '\\' :: 'u' :: hex4 c.toNat
  else
    '\\' :: 'u' :: hex4 (0xd800 + (c.toNat - 0x10000) / 0x400) ++
      ('\\' :: 'u' :: hex4 (0xdc00 + (c.toNat - 0x10000) % 0x400))

/-- `json.dumps` of one string value. -/
def dumpJString (s : String) : List Char :=
  '"' :: s.data.flatMap escapeChar ++ ['"']

/-- Value of a hexadecimal digit character, as accepted by `int(esc, 16)` in
the stdlib JSON scanner. -/
def hexVal (c : Char) : Option Nat :=
  if '0' ≤ c ∧ c ≤ '9' then some (c.toNat - 48)
  else if 'a' ≤ c ∧ c ≤ 'f' then some (c.toNat - 87)
  else if 'A' ≤ c ∧ c ≤ 'F' then some (c.toNat - 55)
  else none

/-- Four hexadecimal digits read from the front of the input. -/
def parseHex4 (cs : List Char) : Option (Nat × List Char) :=
  match cs with
  | c1 :: c2 :: c3 :: c4 :: rest =>
    match hexVal c1, hexVal c2, hexVal c3, hexVal c4 with
    | some d1, some d2, some d3, some d4 =>
      some (((d1 * 16 + d2) * 16 + d3) * 16 + d4, rest)
    | _, _, _, _ => none
  | _ => none

/-- The single-character backslash escapes of the stdlib JSON scanner. -/
def escDecode (e : Char) : Option Char :=
  if e = '"' then some '"'
  else if e = '\\' then some '\\'
  else if e = '/' then some '/'
  else if e = 'b' then some (Char.ofNat 8)
  else if e = 'f' then some (Char.ofNat 12)
  else if e = 'n' then some (Char.ofNat 10)
  else if e = 'r' then some (Char.ofNat 13)
  else if e = 't' then some (Char.ofNat 9)
  else none

/-- The body scan of a JSON string after its opening quote (stdlib
`py_scanstring`, strict mode): literal characters up to the closing quote
(unescaped control characters rejected), backslash escapes, and `\uXXXX`
with surrogate-pair joining.  A decoded code point that Lean's `Char`
cannot carry (an unpaired surrogate, which no `json.dumps` output of this
system contains) makes the model fail instead.  The first argument is
recursion fuel; one unit is spent per produced character. -/
def scanJString : Nat → List Char → Option (List Char × List Char)
  | _, [] => none
  | 0, _ :: _ => none
  | fuel + 1, c :: cs =>
    if c = '"' then some ([], cs)
    else if c = '\\' then
      match cs with
      | [] => none
      | e :: cs' =>
        if e = 'u' then
          match parseHex4 cs' with
          | none => none
          | some (n, cs2) =>
            if 0xd800 ≤ n ∧ n ≤ 0xdbff then
              match cs2 with
              | e2 :: u2 :: cs3 =>
                if e2 = '\\' ∧ u2 = 'u' then
                  match parseHex4 cs3 with
                  | some (n2, cs4) =>
                    if 0xdc00 ≤ n2 ∧ n2 ≤ 0xdfff then
                      (scanJString fuel cs4).map
                        (fun p =>
                          (Char.ofNat (0x10000 + (n - 0xd800) * 0x400 + (n2 - 0xdc00)) :: p.1,
                           p.2))
                    else none
                  | none => none
                else none
              | _ => none
            else if 0xdc00 ≤ n ∧ n ≤ 0xdfff then none
            else (scanJString fuel cs2).map (fun p => (Char.ofNat n :: p.1, p.2))
        else
          match escDecode e with
          | none => none
          | some d => (scanJString fuel cs').map (fun p => (d :: p.1, p.2))
    else if c.toNat < 0x20 then none
    else (scanJString fuel cs).map (fun p => (c :: p.1, p.2))

/-- One JSON string value read from the front of the input. -/
def parseJString (cs : List Char) : Option (String × List Char) :=
  match cs with
  | '"' :: rest => (scanJString (rest.length + 1) rest).map (fun p => (String.mk p.1, p.2))
  | _ => none

/-- Tail of a serialized string list after its first element: `", "` before
each further element, then `]` (the `json.dumps` default separators). -/
def dumpStrListTail (l : List String) : List Char :=
  match l with
  | [] => [']']
  | s :: rest => ',' :: ' ' :: dumpJString s ++ dumpStrListTail rest

/-- `json.dumps` of a list of strings. -/
def dumpStrList (l : List String) : List Char :=
  match l with
  | [] => ['[', ']']
  | s :: rest => '[' :: dumpJString s ++ dumpStrListTail rest

/-- Elements of a serialized string list after the opening bracket.  Fuel is
one unit per element. -/
def parseStrListAux : Nat → List Char → Option (List String × List Char)
  | 0, _ => none
  | fuel + 1, cs =>
    match parseJString cs with
    | none => none
    | some (s, cs') =>
      match cs' with
      | ']' :: rest => some ([s], rest)
      | ',' :: ' ' :: rest => (parseStrListAux fuel rest).map (fun p => (s :: p.1, p.2))
      | _ => none

/-- A JSON list of strings read from the front of the input, in the
canonical spacing `json.dumps` emits. -/
def parseStrList (cs : List Char) : Option (List String × List Char) :=
  match cs with
  | '[' :: ']' :: rest => some ([], rest)
  | '[' :: rest => parseStrListAux (rest.length + 1) rest
  | _ => none

/-- One serialized object entry: `"key": "value"`. -/
def dumpPair (p : String × String) : List Char :=
  dumpJString p.1 ++ ':' :: ' ' :: dumpJString p.2

/-- Tail of a serialized string-to-string object after its first entry. -/
def dumpStrObjTail (l : List (String × String)) : List Char :=
  match l with
  | [] => ['\x7d']
  | p :: rest => ',' :: ' ' :: dumpPair p ++ dumpStrObjTail rest

/-- `json.dumps` of a dict of string keys and string values, entries in the
dict's insertion order. -/
def dumpStrObj (l : List (String × String)) : List Char :=
  match l with
  | [] => ['\x7b', '\x7d']
  | p :: rest => '\x7b' :: dumpPair p ++ dumpStrObjTail rest

/-- One `"key": "value"` entry read from the front of the input. -/
def parsePair (cs : List Char) : Option ((String × String) × List Char) :=
  match parseJString cs with
  | none => none
  | some (k, cs') =>
    match cs' with
    | ':' :: ' ' :: cs2 => (parseJString cs2).map (fun p => ((k, p.1), p.2))
    | _ => none

/-- Entries of a serialized string object after the opening brace. -/
def parseStrObjAux : Nat → List Char → Option (List (String × String) × List Char)
  | 0, _ => none
  | fuel + 1, cs =>
    match parsePair cs with
    | none => none
    | some (kv, cs') =>
      match cs' with
      | '\x7d' :: rest => some ([kv], rest)
      | ',' :: ' ' :: rest => (parseStrObjAux fuel rest).map (fun p => (kv :: p.1, p.2))
      | _ => none

/-- A JSON object of string keys and values read from the front of the
input, in the canonical spacing `json.dumps` emits. -/
def parseStrObj (cs : List Char) : Option (List (String × String) × List Char) :=
  match cs with
  | '\x7b' :: '\x7d' :: rest => some ([], rest)
  | '\x7b' :: rest => parseStrObjAux (rest.length + 1) rest
  | _ => none

/-- `json.dumps(command_schema)` as built in `write_command` (messaging.py):
the schema `\x7b COMMAND_NAME: command, COMMAND_POSITIONAL_ARGUMENTS: args,
COMMAND_KEYWORD_ARGUMENTS: kwargs \x7d` with the keys `"command"`,
`"args"`, `"kwargs"` from settings.py, serialized with the `json.dumps`
defaults. -/
def dumpsEnvelope (e : Envelope) : List Char :=
  '\x7b' :: ("\"command\": ".data ++ dumpJString e.name ++
    ", \"args\": ".data ++ dumpStrList e.args ++
    ", \"kwargs\": ".data ++ dumpStrObj e.kwargs ++ ['\x7d'])

/-- Drops an expected literal character sequence from the front of the
input. -/
def dropLit (pat cs : List Char) : Option (List Char) :=
  match pat, cs with
  | [], _ => some cs
  | p :: ps, c :: cs' => if c = p then dropLit ps cs' else none
  | _ :: _, [] => none

/-- `json.loads` in `read_command` followed by the three keyed reads of
`build_command`, restricted to the canonical textual form `json.dumps`
emits for the command schema — the only form this system puts on the wire
(`json.loads` itself is also whitespace-permissive; those inputs never
occur here). -/
def parseEnvelope (cs : List Char) : Option Envelope :=
  match dropLit ('\x7b' :: "\"command\": ".data) cs with
  | none => none
  | some cs1 =>
    match parseJString cs1 with
    | none => none
    | some (name, cs2) =>
      match dropLit ", \"args\": ".data cs2 with
      | none => none
      | some cs3 =>
        match parseStrList cs3 with
        | none => none
        | some (args, cs4) =>
          match dropLit ", \"kwargs\": ".data cs4 with
          | none => none
          | some cs5 =>
            match parseStrObj cs5 with
            | none => none
            | some (kwargs, cs6) =>
              match cs6 with
              | ['\x7d'] => some ⟨name, args, kwargs⟩
              | _ => none

/-- UTF-8 encoding of one Unicode scalar value (`str.encode("utf-8")`). -/
def utf8EncodeChar (c : Char) : List Nat :=
  if c.toNat < 0x80 then [c.toNat]
  else if c.toNat < 0x800 then
    [0xc0 + c.toNat / 0x40, 0x80 + c.toNat % 0x40]
  else if c.toNat < 0x10000 then
    [0xe0 + c.toNat / 0x1000, 0x80 + c.toNat / 0x40 % 0x40, 0x80 + c.toNat % 0x40]
  else
    [0xf0 + c.toNat / 0x40000, 0x80 + c.toNat / 0x1000 % 0x40,
     0x80 + c.toNat / 0x40 % 0x40, 0x80 + c.toNat % 0x40]

/-- UTF-8 encoding of a text (`str.encode("utf-8")`). -/
def utf8Encode (cs : List Char) : List Nat := cs.flatMap utf8EncodeChar

/-- UTF-8 continuation byte. -/
def isCont (b : Nat) : Bool := decide (0x80 ≤ b ∧ b < 0xc0)

/-- UTF-8 decoding (`bytes.decode("utf-8")`) with the standard validity
checks: continuation bytes, shortest form, no surrogate code points, and
nothing above `0x10FFFF`; a `UnicodeDecodeError` is `none`.  Fuel is one
unit per decoded character. -/
def utf8DecodeAux : Nat → List Nat → Option (List Char)
  | _, [] => some []
  | 0, _ :: _ => none
  | fuel + 1, b0 :: bs =>
    if b0 < 0x80 then
      (utf8DecodeAux fuel bs).map (fun cs => Char.ofNat b0 :: cs)
    else if b0 < 0xc2 then none
    else if b0 < 0xe0 then
      match bs with
      | b1 :: bs' =>
        if isCont b1 then
          (utf8DecodeAux fuel bs').map
            (fun cs => Char.ofNat ((b0 - 0xc0) * 0x40 + (b1 - 0x80)) :: cs)
        else none
      | [] => none
    else if b0 < 0xf0 then
      match bs with
      | b1 :: b2 :: bs' =>
        if isCont b1 && isCont b2 then
          if 0x800 ≤ (b0 - 0xe0) * 0x1000 + (b1 - 0x80) * 0x40 + (b2 - 0x80) ∧
              ((b0 - 0xe0) * 0x1000 + (b1 - 0x80) * 0x40 + (b2 - 0x80) < 0xd800 ∨
               0xdfff < (b0 - 0xe0) * 0x1000 + (b1 - 0x80) * 0x40 + (b2 - 0x80)) then
            (utf8DecodeAux fuel bs').map
              (fun cs => Char.ofNat ((b0 - 0xe0) * 0x1000 + (b1 - 0x80) * 0x40 + (b2 - 0x80)) :: cs)
          else none
        else none
      | _ => none
    else if b0 < 0xf5 then
      match bs with
      | b1 :: b2 :: b3 :: bs' =>
        if isCont b1 && isCont b2 && isCont b3 then
          if 0x10000 ≤
                (b0 - 0xf0) * 0x40000 + (b1 - 0x80) * 0x1000 + (b2 - 0x80) * 0x40 + (b3 - 0x80) ∧
              (b0 - 0xf0) * 0x40000 + (b1 - 0x80) * 0x1000 + (b2 - 0x80) * 0x40 + (b3 - 0x80)
                < 0x110000 then
            (utf8DecodeAux fuel bs').map
              (fun cs =>
                Char.ofNat
                  ((b0 - 0xf0) * 0x40000 + (b1 - 0x80) * 0x1000 + (b2 - 0x80) * 0x40 +
                    (b3 - 0x80)) :: cs)
          else none
        else none
      | _ => none
    else none

/-- UTF-8 decoding of a byte sequence. -/
def utf8Decode (bs : List Nat) : Option (List Char) := utf8DecodeAux bs.length bs

/-- The serialized envelope bytes of `write_command` (messaging.py):
`json.dumps(command_schema).encode(COMMAND_ENCODING)` with
`COMMAND_ENCODING = "utf-8"` (settings.py). -/
def serializeEnvelope (e : Envelope) : List Nat := utf8Encode (dumpsEnvelope e)

/-- The decode path of `read_command` (messaging.py) followed by the field
reads of `build_command`: decode the payload bytes as UTF-8, parse the
structured text, and take the three envelope fields. -/
def deserializeEnvelope (bs : List Nat) : Option Envelope :=
  match utf8Decode bs with
  | none => none
  | some cs => parseEnvelope cs

/-- The body of `main` (neopixel_daemon/main.py): `while True:` read a
command, then `Command.build_command(command).execute()`.  There is no
exception handler in or around the loop, so the first exception raised by
dispatch or execution propagates and ends the process; the remaining
commands are never read.  Modelled over the finite list of envelopes the
peer sends: the result is the actuator state when the loop stops consuming
commands, together with the escaped exception, if any. -/
def daemonLoop (cmds : List Envelope) (st : ActuatorState) : ActuatorState × Option PyErr :=
  match cmds with
  | [] => (st, none)
  | env :: rest =>
    match Except.bind (build_command env) (fun c => (executeCmd c st).1) with
    | .ok st' => daemonLoop rest st'
    | .error e => (st, some e)

theorem encode_msg_size_ok (n : Nat) (h : n < 2 ^ 32) :
    encode_msg_size n = .ok [n % 256, n / 256 % 256, n / 256 ^ 2 % 256, n / 256 ^ 3 % 256] := by
  have h2 : n < 4294967296 := by simpa using h
  simp [encode_msg_size, h2]

theorem decode_msg_size_bytes (n : Nat) (h : n < 2 ^ 32) :
    decode_msg_size [n % 256, n / 256 % 256, n / 256 ^ 2 % 256, n / 256 ^ 3 % 256] = .ok n := by
  simp only [decode_msg_size, Except.ok.injEq, show (256 : ℕ) ^ 2 = 65536 by norm_num,
    show (256 : ℕ) ^ 3 = 16777216 by norm_num]
  have h2 : n < 4294967296 := by simpa using h
  omega

theorem create_msg_ok (p : List Nat) (hp : p.length ≤ 2 ^ 32 - 1) :
    create_msg p =
      .ok ([p.length % 256, p.length / 256 % 256, p.length / 256 ^ 2 % 256,
            p.length / 256 ^ 3 % 256] ++ p) := by
  have hpl : p.length ≤ 4294967295 := by simpa using hp
  have h1 : ¬ p.length > MAX_MESSAGE_SIZE := by
    simp only [MAX_MESSAGE_SIZE]
    omega
  have h2 : p.length < 4294967296 := by omega
  simp [create_msg, h1, encode_msg_size, h2]

theorem get_message_cons4 (a b c d : Nat) (p : List Nat) :
    get_message (a :: b :: c :: d :: p) =
      .ok (p.take (a + b * 256 + c * 256 ^ 2 + d * 256 ^ 3)) := rfl

/-- Claim C5: the frame round trip.  For every payload within the 4-byte
length bound, `get_message` applied to the stream `create_msg` produces
returns the payload unchanged; and for every unsigned 32-bit value, the
little-endian size prefix written by `encode_msg_size` is recovered exactly
by `decode_msg_size`. -/
theorem frame_round_trip (p : List Nat) (n : Nat)
    (hp : p.length ≤ 2 ^ 32 - 1) (hn : n < 2 ^ 32) :
    (∃ m, create_msg p = .ok m ∧ get_message m = .ok p) ∧
    (encode_msg_size n).bind decode_msg_size = .ok n := by
  constructor
  · refine ⟨_, create_msg_ok p hp, ?_⟩
    rw [show ([p.length % 256, p.length / 256 % 256, p.length / 256 ^ 2 % 256,
          p.length / 256 ^ 3 % 256] ++ p) =
        p.length % 256 :: (p.length / 256 % 256) :: (p.length / 256 ^ 2 % 256) ::
          (p.length / 256 ^ 3 % 256) :: p from rfl]
    rw [get_message_cons4]
    have hpl : p.length ≤ 4294967295 := by simpa using hp
    have harith : p.length % 256 + p.length / 256 % 256 * 256 +
        p.length / 256 ^ 2 % 256 * 256 ^ 2 + p.length / 256 ^ 3 % 256 * 256 ^ 3 =
        p.length := by
      simp only [show (256 : ℕ) ^ 2 = 65536 by norm_num,
        show (256 : ℕ) ^ 3 = 16777216 by norm_num]
      omega
    rw [harith, List.take_length]
  · rw [encode_msg_size_ok n hn]
    simpa using decode_msg_size_bytes n hn

/-- Claim C5 witness at a concrete payload and size. -/
theorem frame_round_trip_witness :
    (∃ m, create_msg [9] = .ok m ∧ get_message m = .ok [9]) ∧
    (encode_msg_size 3).bind decode_msg_size = .ok 3 :=
  frame_round_trip [9] 3 (by norm_num) (by norm_num)

/-- Claim C6: `create_msg` fails with the oversize `ValueError` exactly when
the payload length exceeds `2^32 - 1`; within the bound it returns the
4-byte little-endian length followed by the payload, nothing else. -/
theorem create_msg_spec (p : List Nat) :
    (p.length > 2 ^ 32 - 1 → create_msg p = .error (.valueError "Message is too long")) ∧
    (p.length ≤ 2 ^ 32 - 1 →
      create_msg p = .ok ([p.length % 256, p.length / 256 % 256, p.length / 256 ^ 2 % 256,
        p.length / 256 ^ 3 % 256] ++ p)) := by
  constructor
  · intro h
    have h1 : p.length > MAX_MESSAGE_SIZE := by
      simp only [MAX_MESSAGE_SIZE]
      omega
    simp [create_msg, h1]
  · intro h
    exact create_msg_ok p h

/-- Claim C6 witness at a concrete payload. -/
theorem create_msg_spec_witness : create_msg [7] = .ok [1, 0, 0, 0, 7] := by
  have h := (create_msg_spec [7]).2 (by norm_num)
  norm_num at h
  exact h

/-- Claim C3 counterexample: a stream declaring a 5-byte payload whose
writer closes after delivering only 2 bytes.  `get_message` returns the
2-byte payload as if complete; it raises no truncation error. -/
theorem get_message_short_payload_no_error :
    get_message [5, 0, 0, 0, 1, 2] = .ok [1, 2] := rfl

/-- Claim C3 as amended: when the 4-byte prefix declares `n` and the stream
closes with fewer than `n` payload bytes delivered, `get_message` returns
the short payload without error (`file.read(n)` simply returns fewer bytes
at end of stream and no length check follows). -/
theorem get_message_returns_short_payload (sb : List Nat) (n : Nat) (payload : List Nat)
    (hdec : decode_msg_size sb = .ok n) (hshort : payload.length < n) :
    get_message (sb ++ payload) = .ok payload := by
  rcases sb with _ | ⟨b0, _ | ⟨b1, _ | ⟨b2, _ | ⟨b3, _ | ⟨b4, t⟩⟩⟩⟩⟩ <;>
    simp only [decode_msg_size, Except.ok.injEq, reduceCtorEq] at hdec
  rw [show ([b0, b1, b2, b3] ++ payload) = b0 :: b1 :: b2 :: b3 :: payload from rfl,
    get_message_cons4, hdec, List.take_of_length_le hshort.le]

/-- Claim C3 witness at a concrete truncated stream. -/
theorem get_message_returns_short_payload_witness :
    get_message ([5, 0, 0, 0] ++ [1, 2]) = .ok [1, 2] :=
  get_message_returns_short_payload [5, 0, 0, 0] 5 [1, 2] rfl (by norm_num)

/-- Claim C1 counterexample: the daemon loop body
`Command.build_command(command).execute()` runs with no exception handler,
so the dispatch error of the first (unknown) command escapes the loop; the
following well-formed `off` command is never executed and the actuator is
left in its prior state rather than all-zero. -/
theorem daemon_loop_unknown_command_kills_loop :
    daemonLoop [⟨"bogus", [], []⟩, ⟨"off", [], []⟩] ⟨[(5, 5, 5)], 1⟩ =
      (⟨[(5, 5, 5)], 1⟩, some (.valueError "Cannot find command named: bogus")) ∧
    ([((5 : Int), (5 : Int), (5 : Int))] ≠ List.replicate MAX_NUM_PIXELS ((0 : Int), (0 : Int), (0 : Int))) :=
  ⟨rfl, by decide⟩

/-- Claim C1 as amended: an error raised between dispatch and execute is not
caught anywhere in the loop; the first failing command terminates the
read-dispatch loop with that error, the actuator state is left as it was,
and every later command goes unexecuted. -/
theorem daemonLoop_error_stops_loop (env : Envelope) (rest : List Envelope)
    (st : ActuatorState) (e : PyErr)
    (h : Except.bind (build_command env) (fun c => (executeCmd c st).1) = .error e) :
    daemonLoop (env :: rest) st = (st, some e) := by
  simp [daemonLoop, h]

/-- Claim C1 witness at a concrete command sequence. -/
theorem daemonLoop_error_stops_loop_witness :
    daemonLoop [⟨"bogus", [], []⟩, ⟨"off", [], []⟩] ⟨[(5, 5, 5)], 1⟩ =
      (⟨[(5, 5, 5)], 1⟩, some (.valueError "Cannot find command named: bogus")) :=
  daemonLoop_error_stops_loop ⟨"bogus", [], []⟩ [⟨"off", [], []⟩] ⟨[(5, 5, 5)], 1⟩
    (.valueError "Cannot find command named: bogus") rfl

/-- Claim C4 counterexample: two command variants declaring the same
`command_name()` are both registered (the subclass list holds both) and no
`DuplicateCommandNameError` exists anywhere; dispatch silently returns the
first variant, shadowing the second, distinct one. -/
theorem duplicate_command_name_not_rejected :
    buildCommandWith [⟨"off", Cmd.off⟩, ⟨"off", Cmd.echo⟩] ⟨"off", [], []⟩ =
      .ok (Cmd.off [] []) ∧ Cmd.off [] [] ≠ Cmd.echo [] [] :=
  ⟨rfl, by decide⟩

/-- Claim C4 as amended: registration performs no duplicate-name check; when
several variants share a name, `build_command` constructs whichever comes
first in the subclass list and never consults the rest. -/
theorem buildCommandWith_first_match_wins (v : CommandVariant) (subs : List CommandVariant)
    (env : Envelope) (h : v.cname = env.name) :
    buildCommandWith (v :: subs) env = .ok (v.make env.args env.kwargs) := by
  simp [buildCommandWith, h]

/-- Claim C4 witness on a registry with a duplicated name. -/
theorem buildCommandWith_first_match_wins_witness :
    buildCommandWith [⟨"off", Cmd.off⟩, ⟨"off", Cmd.echo⟩] ⟨"off", ["x"], []⟩ =
      .ok (Cmd.off ["x"] []) :=
  buildCommandWith_first_match_wins ⟨"off", Cmd.off⟩ [⟨"off", Cmd.echo⟩] ⟨"off", ["x"], []⟩ rfl

/-- Claim C9: `build_command` on an unregistered name fails with the
`ValueError` carrying that name; on each registered name it returns the
matching variant constructed with the envelope's positional and keyword
arguments, as a value, without executing it. -/
theorem build_command_dispatch_spec :
    (∀ env : Envelope, env.name ≠ "off" → env.name ≠ "set" → env.name ≠ "echo" →
      build_command env = .error (.valueError ("Cannot find command named: " ++ env.name))) ∧
    (∀ (args : List String) (kwargs : List (String × String)),
      build_command ⟨"off", args, kwargs⟩ = .ok (.off args kwargs) ∧
      build_command ⟨"set", args, kwargs⟩ = .ok (.set args kwargs) ∧
      build_command ⟨"echo", args, kwargs⟩ = .ok (.echo args kwargs)) := by
  constructor
  · intro env h1 h2 h3
    simp [build_command, commandSubclasses, buildCommandWith, Ne.symm h1, Ne.symm h2, Ne.symm h3]
  · exact fun args kwargs => ⟨rfl, rfl, rfl⟩

/-- Claim C9 witness: the envelope named `bogus` is rejected with the error
carrying the name, and a registered name constructs its variant. -/
theorem build_command_dispatch_spec_witness :
    build_command ⟨"bogus", [], []⟩ =
      .error (.valueError ("Cannot find command named: " ++ "bogus")) ∧
    build_command ⟨"off", ["a"], [("k", "v")]⟩ = .ok (.off ["a"] [("k", "v")]) :=
  ⟨build_command_dispatch_spec.1 ⟨"bogus", [], []⟩ (by decide) (by decide) (by decide),
   (build_command_dispatch_spec.2 ["a"] [("k", "v")]).1⟩

/-- Claim C8: executing the built `set` command with `brightness` absent
fails on its first statement, the `KeyError` of
`self.kwargs["brightness"]`, before any actuator object is constructed: no
driver operation is issued and the actuator state is untouched. -/
theorem set_missing_brightness_no_write (st : ActuatorState) :
    build_command ⟨"set", [], [("color", "255-0-0")]⟩ =
      .ok (.set [] [("color", "255-0-0")]) ∧
    executeCmd (.set [] [("color", "255-0-0")]) st = (.error (.keyError "brightness"), []) :=
  ⟨rfl, rfl⟩

/-- Claim C2 (the failing input): `_get_color` on `"0xE09D37"` evaluates
`int("0xE0")` with the default base 10 and raises `ValueError` instead of
parsing the hex bytes; executing the built `set` command therefore fails
after parsing the brightness, with no driver operation issued. -/
theorem set_command_hex_color_raises (st : ActuatorState) :
    get_color "0xE09D37" = .error (.valueError "invalid literal for int() with base 10") ∧
    build_command ⟨"set", [], [("brightness", "0.6"), ("color", "0xE09D37")]⟩ =
      .ok (.set [] [("brightness", "0.6"), ("color", "0xE09D37")]) ∧
    executeCmd (.set [] [("brightness", "0.6"), ("color", "0xE09D37")]) st =
      (.error (.valueError "invalid literal for int() with base 10"), []) :=
  ⟨rfl, rfl, rfl⟩

theorem splitOnChar_not_mem (sep : Char) (xs : List Char) (h : sep ∉ xs) :
    splitOnChar sep xs = [xs] := by
  induction xs with
  | nil => rfl
  | cons x t ih =>
    rw [List.mem_cons] at h
    push_neg at h
    have hx : ¬ x = sep := fun he => h.1 he.symm
    simp [splitOnChar, hx, ih h.2]

theorem splitOnChar_append (sep : Char) (xs ys : List Char) (h : sep ∉ xs) :
    splitOnChar sep (xs ++ sep :: ys) = xs :: splitOnChar sep ys := by
  induction xs with
  | nil => simp [splitOnChar]
  | cons x t ih =>
    rw [List.mem_cons] at h
    push_neg at h
    have hx : ¬ x = sep := fun he => h.1 he.symm
    simp [splitOnChar, hx, ih h.2]

theorem pyInt_digits (a : List Char) (h1 : a ≠ []) (h2 : a.all Char.isDigit = true) :
    pyInt a = some ((digitsVal a : Int)) := by
  match a, h1 with
  | c :: t, _ =>
    have hc : c.isDigit = true := List.all_eq_true.mp h2 c (List.mem_cons_self c t)
    have h3 : ¬ c = '-' := by
      intro he
      rw [he] at hc
      exact absurd hc (by decide)
    have h4 : ¬ c = '+' := by
      intro he
      rw [he] at hc
      exact absurd hc (by decide)
    simp [pyInt, h3, h4, pyIntDigits, h2]

/-- Claim C10 counterexample: the string `"-5-2-3"` has the shape `a-b-c`
with `a = "-5"`, `b = "2"`, `c = "3"`, each a decimal integer literal, yet
`_get_color` raises `ValueError` instead of returning `(-5, 2, 3)`:
`split("-")` fragments the leading minus sign into an empty piece and
`int("")` fails. -/
theorem get_color_negative_component_errors :
    get_color "-5-2-3" = .error (.valueError "invalid literal for int() with base 10") := rfl

/-- Claim C10 as amended: the dash form performs no range validation at all
for the components that can occur — for every `a-b-c` built from nonempty
all-digit components the parser returns the three decimal values however
large (no 0..255 check) — but a negative component is impossible: splitting
on `-` consumes any minus sign, so such an input fails to parse rather than
yielding a negative value. -/
theorem getColor_dash_no_range_check (a b c : List Char)
    (ha1 : a ≠ []) (ha2 : a.all Char.isDigit = true)
    (hb1 : b ≠ []) (hb2 : b.all Char.isDigit = true)
    (hc1 : c ≠ []) (hc2 : c.all Char.isDigit = true) :
    getColorChars (a ++ '-' :: (b ++ '-' :: c)) =
      .ok ((digitsVal a : Int), (digitsVal b : Int), (digitsVal c : Int)) := by
  have hnotmem : ∀ (l : List Char), l.all Char.isDigit = true → '-' ∉ l := by
    intro l hl m
    have := List.all_eq_true.mp hl _ m
    exact absurd this (by decide)
  have hsplit : splitOnChar '-' (a ++ '-' :: (b ++ '-' :: c)) = [a, b, c] := by
    rw [splitOnChar_append '-' a _ (hnotmem a ha2),
      splitOnChar_append '-' b c (hnotmem b hb2),
      splitOnChar_not_mem '-' c (hnotmem c hc2)]
  have htake : ¬ (a ++ '-' :: (b ++ '-' :: c)).take 2 = ['0', 'x'] := by
    match a, ha1 with
    | [], h => exact absurd rfl h
    | [d], _ =>
      intro he
      have h1 : (([d] : List Char) ++ '-' :: (b ++ '-' :: c)).take 2 = [d, '-'] := rfl
      rw [h1] at he
      simp at he
    | d :: e :: t, _ =>
      intro he
      have h1 : ((d :: e :: t) ++ '-' :: (b ++ '-' :: c)).take 2 = [d, e] := rfl
      rw [h1] at he
      simp at he
      have hd : e.isDigit = true :=
        List.all_eq_true.mp ha2 _ (List.mem_cons_of_mem _ (List.mem_cons_self e t))
      rw [he.2] at hd
      exact absurd hd (by decide)
  have hcont : (a ++ '-' :: (b ++ '-' :: c)).contains '-' = true := by
    simp
  rw [getColorChars.eq_def]
  rw [if_neg htake, if_pos hcont, hsplit]
  have hm : List.mapM.loop pyInt [a, b, c] [] =
      some [(digitsVal a : Int), (digitsVal b : Int), (digitsVal c : Int)] := by
    simp [List.mapM.loop, pyInt_digits a ha1 ha2, pyInt_digits b hb1 hb2,
      pyInt_digits c hc1 hc2]
  simp only [List.mapM]
  rw [hm]

/-- Claim C10 witness: components above 255 are accepted verbatim. -/
theorem getColor_dash_no_range_check_witness :
    getColorChars ['3', '0', '0', '-', '1', '2', '-', '7'] = .ok (300, 12, 7) := by
  have h := getColor_dash_no_range_check ['3', '0', '0'] ['1', '2'] ['7']
    (by decide) (by decide) (by decide) (by decide) (by decide) (by decide)
  have e : getColorChars (['3', '0', '0'] ++ '-' :: (['1', '2'] ++ '-' :: ['7'])) =
      getColorChars ['3', '0', '0', '-', '1', '2', '-', '7'] := rfl
  rw [e] at h
  rw [h]
  have e1 : (digitsVal ['3', '0', '0'] : Int) = 300 := by decide
  have e2 : (digitsVal ['1', '2'] : Int) = 12 := by decide
  have e3 : (digitsVal ['7'] : Int) = 7 := by decide
  rw [e1, e2, e3]

theorem hexVal_hexDigitChar : ∀ d, d < 16 → hexVal (hexDigitChar d) = some d := by decide

theorem parseHex4_hex4 (n : Nat) (h : n < 65536) (rest : List Char) :
    parseHex4 (hex4 n ++ rest) = some (n, rest) := by
  have e1 := hexVal_hexDigitChar (n / 4096 % 16) (Nat.mod_lt _ (by norm_num))
  have e2 := hexVal_hexDigitChar (n / 256 % 16) (Nat.mod_lt _ (by norm_num))
  have e3 := hexVal_hexDigitChar (n / 16 % 16) (Nat.mod_lt _ (by norm_num))
  have e4 := hexVal_hexDigitChar (n % 16) (Nat.mod_lt _ (by norm_num))
  simp only [hex4, List.cons_append, List.nil_append, parseHex4, e1, e2, e3, e4,
    Option.some.injEq, Prod.mk.injEq]
  exact ⟨by omega, trivial⟩

theorem char_valid_range (c : Char) :
    c.toNat < 0xd800 ∨ (0xdfff < c.toNat ∧ c.toNat < 0x110000) := by
  have h := c.valid
  rcases h with h | h
  · exact Or.inl h
  · exact Or.inr h

theorem scanstep (f : Nat) (tl l r : List Char) (hi lo : Nat)
    (hhi : 0xd800 ≤ hi ∧ hi ≤ 0xdbff) (hlo : 0xdc00 ≤ lo ∧ lo ≤ 0xdfff)
    (h : scanJString f tl = some (l, r)) :
    scanJString (f + 1) ('\\' :: 'u' :: (hex4 hi ++ ('\\' :: 'u' :: (hex4 lo ++ tl)))) =
      some (Char.ofNat (0x10000 + (hi - 0xd800) * 0x400 + (lo - 0xdc00)) :: l, r) := by
  simp [scanJString, parseHex4_hex4 hi (by omega) ('\\' :: 'u' :: (hex4 lo ++ tl)),
    parseHex4_hex4 lo (by omega) tl, hhi, hlo, h]

theorem scanJString_escape (c : Char) (f : Nat) (tl l r : List Char)
    (h : scanJString f tl = some (l, r)) :
    scanJString (f + 1) (escapeChar c ++ tl) = some (c :: l, r) := by
  by_cases h1 : c = '\\'
  · subst h1
    simp [escapeChar, scanJString, escDecode, h]
  by_cases h2 : c = '"'
  · subst h2
    simp [escapeChar, scanJString, escDecode, h]
  by_cases h3 : c = Char.ofNat 8
  · subst h3
    simp [escapeChar, scanJString, escDecode, h]
  by_cases h4 : c = Char.ofNat 9
  · subst h4
    simp [escapeChar, scanJString, escDecode, h]
  by_cases h5 : c = Char.ofNat 10
  · subst h5
    simp [escapeChar, scanJString, escDecode, h]
  by_cases h6 : c = Char.ofNat 12
  · subst h6
    simp [escapeChar, scanJString, escDecode, h]
  by_cases h7 : c = Char.ofNat 13
  · subst h7
    simp [escapeChar, scanJString, escDecode, h]
  by_cases h8 : 0x20 ≤ c.toNat ∧ c.toNat ≤ 0x7e
  · have e : escapeChar c = [c] := by
      simp [escapeChar, h1, h2, h3, h4, h5, h6, h7, h8]
    rw [e]
    have hc20 : ¬ c.toNat < 0x20 := by omega
    simp [scanJString, h1, h2, hc20, h]
  by_cases h9 : c.toNat < 0x10000
  · have e : escapeChar c = '\\' :: 'u' :: hex4 c.toNat := by
      simp [escapeChar, h1, h2, h3, h4, h5, h6, h7, h8, h9]
    rw [e]
    have hval := char_valid_range c
    have hn1 : ¬ (0xd800 ≤ c.toNat ∧ c.toNat ≤ 0xdbff) := by omega
    have hn2 : ¬ (0xdc00 ≤ c.toNat ∧ c.toNat ≤ 0xdfff) := by omega
    simp [scanJString, parseHex4_hex4 c.toNat (by omega) tl, hn1, hn2, h, Char.ofNat_toNat]
  · have e : escapeChar c = '\\' :: 'u' :: hex4 (0xd800 + (c.toNat - 0x10000) / 0x400) ++
        ('\\' :: 'u' :: hex4 (0xdc00 + (c.toNat - 0x10000) % 0x400)) := by
      simp [escapeChar, h1, h2, h3, h4, h5, h6, h7, h8, h9]
    rw [e]
    have hval := char_valid_range c
    simp only [List.cons_append, List.append_assoc, List.nil_append]
    have hstep := scanstep f tl l r (0xd800 + (c.toNat - 0x10000) / 0x400)
        (0xdc00 + (c.toNat - 0x10000) % 0x400) (by omega) (by omega) h
    rw [hstep]
    have harg : 0x10000 + (0xd800 + (c.toNat - 0x10000) / 0x400 - 0xd800) * 0x400 +
        (0xdc00 + (c.toNat - 0x10000) % 0x400 - 0xdc00) = c.toNat := by omega
    rw [harg, Char.ofNat_toNat]

theorem scanJString_escapeAll (s : List Char) :
    ∀ (f : Nat) (rest : List Char), s.length < f →
      scanJString f (s.flatMap escapeChar ++ '"' :: rest) = some (s, rest) := by
  induction s with
  | nil =>
    intro f rest hf
    cases f with
    | zero => exact absurd hf (by simp)
    | succ f => simp [scanJString]
  | cons c t ih =>
    intro f rest hf
    cases f with
    | zero => exact absurd hf (by simp)
    | succ f =>
      have h := ih f rest (by simp only [List.length_cons] at hf; omega)
      rw [List.flatMap_cons, List.append_assoc]
      exact scanJString_escape c f _ t rest h

theorem escapeChar_length_pos (c : Char) : 1 ≤ (escapeChar c).length := by
  unfold escapeChar
  split_ifs <;> simp

theorem flatMap_escape_length (s : List Char) : s.length ≤ (s.flatMap escapeChar).length := by
  induction s with
  | nil => simp
  | cons c t ih =>
    rw [List.flatMap_cons, List.length_append]
    have := escapeChar_length_pos c
    simp only [List.length_cons]
    omega

theorem parseJString_dump (s : String) (rest : List Char) :
    parseJString (dumpJString s ++ rest) = some (s, rest) := by
  have hsh : dumpJString s ++ rest = '"' :: (s.data.flatMap escapeChar ++ '"' :: rest) := by
    simp [dumpJString]
  rw [hsh]
  have hlen : s.data.length < (s.data.flatMap escapeChar ++ '"' :: rest).length + 1 := by
    rw [List.length_append]
    have := flatMap_escape_length s.data
    omega
  show (scanJString ((s.data.flatMap escapeChar ++ '"' :: rest).length + 1)
      (s.data.flatMap escapeChar ++ '"' :: rest)).map (fun p => (String.mk p.1, p.2)) =
      some (s, rest)
  rw [scanJString_escapeAll s.data _ rest hlen]
  rfl

theorem dumpStrListTail_length (t : List String) : t.length ≤ (dumpStrListTail t).length := by
  induction t with
  | nil => simp [dumpStrListTail]
  | cons s t ih =>
    simp only [dumpStrListTail, List.length_cons, List.length_append]
    omega

theorem parseStrListAux_dump (t : List String) :
    ∀ (f : Nat) (s : String) (rest : List Char), t.length < f →
      parseStrListAux f (dumpJString s ++ (dumpStrListTail t ++ rest)) = some (s :: t, rest) := by
  induction t with
  | nil =>
    intro f s rest hf
    cases f with
    | zero => exact absurd hf (by simp)
    | succ f =>
      simp only [parseStrListAux]
      rw [parseJString_dump s]
      simp [dumpStrListTail]
  | cons s' t' ih =>
    intro f s rest hf
    cases f with
    | zero => exact absurd hf (by simp)
    | succ f =>
      have e : dumpStrListTail (s' :: t') ++ rest =
          ',' :: ' ' :: (dumpJString s' ++ (dumpStrListTail t' ++ rest)) := by
        simp [dumpStrListTail]
      simp only [parseStrListAux]
      rw [parseJString_dump s]
      simp [e, ih f s' rest (by simp only [List.length_cons] at hf; omega)]

theorem parseStrList_dump (l : List String) (rest : List Char) :
    parseStrList (dumpStrList l ++ rest) = some (l, rest) := by
  cases l with
  | nil => simp [dumpStrList, parseStrList]
  | cons s t =>
    have e : dumpStrList (s :: t) ++ rest =
        '[' :: ('"' :: (s.data.flatMap escapeChar ++ ('"' :: (dumpStrListTail t ++ rest)))) := by
      simp [dumpStrList, dumpJString]
    rw [e]
    show parseStrListAux
        (('"' :: (s.data.flatMap escapeChar ++ ('"' :: (dumpStrListTail t ++ rest)))).length + 1)
        ('"' :: (s.data.flatMap escapeChar ++ ('"' :: (dumpStrListTail t ++ rest)))) =
        some (s :: t, rest)
    have e2 : '"' :: (s.data.flatMap escapeChar ++ ('"' :: (dumpStrListTail t ++ rest))) =
        dumpJString s ++ (dumpStrListTail t ++ rest) := by
      simp [dumpJString]
    rw [e2]
    have h1 := dumpStrListTail_length t
    refine parseStrListAux_dump t _ s rest ?_
    simp only [List.length_append]
    omega

theorem parsePair_dump (p : String × String) (rest : List Char) :
    parsePair (dumpPair p ++ rest) = some (p, rest) := by
  have e : dumpPair p ++ rest = dumpJString p.1 ++ (':' :: ' ' :: (dumpJString p.2 ++ rest)) := by
    simp [dumpPair]
  rw [e]
  simp only [parsePair]
  rw [parseJString_dump p.1]
  simp [parseJString_dump p.2]

theorem dumpStrObjTail_length (t : List (String × String)) :
    t.length ≤ (dumpStrObjTail t).length := by
  induction t with
  | nil => simp [dumpStrObjTail]
  | cons p t ih =>
    simp only [dumpStrObjTail, List.length_cons, List.length_append]
    omega

theorem parseStrObjAux_dump (t : List (String × String)) :
    ∀ (f : Nat) (p : String × String) (rest : List Char), t.length < f →
      parseStrObjAux f (dumpPair p ++ (dumpStrObjTail t ++ rest)) = some (p :: t, rest) := by
  induction t with
  | nil =>
    intro f p rest hf
    cases f with
    | zero => exact absurd hf (by simp)
    | succ f =>
      simp only [parseStrObjAux]
      rw [parsePair_dump p]
      simp [dumpStrObjTail]
  | cons p' t' ih =>
    intro f p rest hf
    cases f with
    | zero => exact absurd hf (by simp)
    | succ f =>
      have e : dumpStrObjTail (p' :: t') ++ rest =
          ',' :: ' ' :: (dumpPair p' ++ (dumpStrObjTail t' ++ rest)) := by
        simp [dumpStrObjTail]
      simp only [parseStrObjAux]
      rw [parsePair_dump p]
      simp [e, ih f p' rest (by simp only [List.length_cons] at hf; omega)]

theorem parseStrObj_dump (l : List (String × String)) (rest : List Char) :
    parseStrObj (dumpStrObj l ++ rest) = some (l, rest) := by
  cases l with
  | nil => simp [dumpStrObj, parseStrObj]
  | cons p t =>
    have e : dumpStrObj (p :: t) ++ rest =
        '\x7b' :: ('"' :: (p.1.data.flatMap escapeChar ++
          ('"' :: (':' :: ' ' :: (dumpJString p.2 ++ (dumpStrObjTail t ++ rest)))))) := by
      simp [dumpStrObj, dumpPair, dumpJString]
    rw [e]
    show parseStrObjAux
        (('"' :: (p.1.data.flatMap escapeChar ++
          ('"' :: (':' :: ' ' :: (dumpJString p.2 ++ (dumpStrObjTail t ++ rest)))))).length + 1)
        ('"' :: (p.1.data.flatMap escapeChar ++
          ('"' :: (':' :: ' ' :: (dumpJString p.2 ++ (dumpStrObjTail t ++ rest)))))) =
        some (p :: t, rest)
    have e2 : '"' :: (p.1.data.flatMap escapeChar ++
        ('"' :: (':' :: ' ' :: (dumpJString p.2 ++ (dumpStrObjTail t ++ rest))))) =
        dumpPair p ++ (dumpStrObjTail t ++ rest) := by
      simp [dumpPair, dumpJString]
    rw [e2]
    have h1 := dumpStrObjTail_length t
    refine parseStrObjAux_dump t _ p rest ?_
    simp only [List.length_append]
    omega

theorem dropLit_append (pat rest : List Char) : dropLit pat (pat ++ rest) = some rest := by
  induction pat with
  | nil => rfl
  | cons p ps ih => simp [dropLit, ih]

theorem parseEnvelope_dumps (e : Envelope) : parseEnvelope (dumpsEnvelope e) = some e := by
  obtain ⟨name, args, kwargs⟩ := e
  have h1 : dumpsEnvelope ⟨name, args, kwargs⟩ =
      ('\x7b' :: "\"command\": ".data) ++
        (dumpJString name ++
          (", \"args\": ".data ++
            (dumpStrList args ++
              (", \"kwargs\": ".data ++ (dumpStrObj kwargs ++ ['\x7d']))))) := by
    simp [dumpsEnvelope]
  rw [h1]
  simp [parseEnvelope, dropLit, parseJString_dump, parseStrList_dump, parseStrObj_dump]

theorem hex4_ascii (n : Nat) : ∀ x ∈ hex4 n, x.toNat < 0x80 := by
  intro x hx
  have hd : ∀ d : Nat, d < 16 → (hexDigitChar d).toNat < 0x80 := by decide
  simp only [hex4, List.mem_cons, List.not_mem_nil, or_false] at hx
  rcases hx with h | h | h | h <;> subst h <;> exact hd _ (Nat.mod_lt _ (by norm_num))

theorem escapeChar_ascii (c : Char) : ∀ x ∈ escapeChar c, x.toNat < 0x80 := by
  intro x hx
  unfold escapeChar at hx
  split_ifs at hx with h1 h2 h3 h4 h5 h6 h7 h8 h9
  · simp only [List.mem_cons, List.not_mem_nil, or_false] at hx
    rcases hx with h | h <;> subst h <;> decide
  · simp only [List.mem_cons, List.not_mem_nil, or_false] at hx
    rcases hx with h | h <;> subst h <;> decide
  · simp only [List.mem_cons, List.not_mem_nil, or_false] at hx
    rcases hx with h | h <;> subst h <;> decide
  · simp only [List.mem_cons, List.not_mem_nil, or_false] at hx
    rcases hx with h | h <;> subst h <;> decide
  · simp only [List.mem_cons, List.not_mem_nil, or_false] at hx
    rcases hx with h | h <;> subst h <;> decide
  · simp only [List.mem_cons, List.not_mem_nil, or_false] at hx
    rcases hx with h | h <;> subst h <;> decide
  · simp only [List.mem_cons, List.not_mem_nil, or_false] at hx
    rcases hx with h | h <;> subst h <;> decide
  · rw [List.mem_singleton] at hx
    subst hx
    omega
  · rcases List.mem_cons.mp hx with h | h
    · subst h; decide
    rcases List.mem_cons.mp h with h | h
    · subst h; decide
    exact hex4_ascii _ x h
  · rcases List.mem_append.mp hx with h | h
    · rcases List.mem_cons.mp h with h2 | h2
      · subst h2; decide
      rcases List.mem_cons.mp h2 with h3 | h3
      · subst h3; decide
      exact hex4_ascii _ x h3
    · rcases List.mem_cons.mp h with h2 | h2
      · subst h2; decide
      rcases List.mem_cons.mp h2 with h3 | h3
      · subst h3; decide
      exact hex4_ascii _ x h3

theorem dumpJString_ascii (s : String) : ∀ x ∈ dumpJString s, x.toNat < 0x80 := by
  intro x hx
  unfold dumpJString at hx
  rcases List.mem_append.mp hx with h | h
  · rcases List.mem_cons.mp h with h2 | h2
    · subst h2; decide
    obtain ⟨c, _, hm⟩ := List.mem_flatMap.mp h2
    exact escapeChar_ascii c x hm
  · rw [List.mem_singleton] at h
    subst h
    decide

theorem dumpStrListTail_ascii (t : List String) : ∀ x ∈ dumpStrListTail t, x.toNat < 0x80 := by
  induction t with
  | nil =>
    intro x hx
    rw [show dumpStrListTail [] = [']'] from rfl, List.mem_singleton] at hx
    subst hx
    decide
  | cons s t ih =>
    intro x hx
    rw [show dumpStrListTail (s :: t) =
        (',' :: ' ' :: dumpJString s) ++ dumpStrListTail t from rfl] at hx
    rcases List.mem_append.mp hx with h | h
    · rcases List.mem_cons.mp h with h2 | h2
      · subst h2; decide
      rcases List.mem_cons.mp h2 with h3 | h3
      · subst h3; decide
      exact dumpJString_ascii s x h3
    · exact ih x h

theorem dumpStrList_ascii (l : List String) : ∀ x ∈ dumpStrList l, x.toNat < 0x80 := by
  cases l with
  | nil =>
    intro x hx
    rw [show dumpStrList [] = ['[', ']'] from rfl] at hx
    rcases List.mem_cons.mp hx with h | h
    · subst h; decide
    rw [List.mem_singleton] at h
    subst h
    decide
  | cons s t =>
    intro x hx
    rw [show dumpStrList (s :: t) = ('[' :: dumpJString s) ++ dumpStrListTail t from rfl] at hx
    rcases List.mem_append.mp hx with h | h
    · rcases List.mem_cons.mp h with h2 | h2
      · subst h2; decide
      exact dumpJString_ascii s x h2
    · exact dumpStrListTail_ascii t x h

theorem dumpPair_ascii (p : String × String) : ∀ x ∈ dumpPair p, x.toNat < 0x80 := by
  intro x hx
  rw [show dumpPair p = dumpJString p.1 ++ (':' :: ' ' :: dumpJString p.2) from rfl] at hx
  rcases List.mem_append.mp hx with h | h
  · exact dumpJString_ascii p.1 x h
  · rcases List.mem_cons.mp h with h2 | h2
    · subst h2; decide
    rcases List.mem_cons.mp h2 with h3 | h3
    · subst h3; decide
    exact dumpJString_ascii p.2 x h3

theorem dumpStrObjTail_ascii (t : List (String × String)) :
    ∀ x ∈ dumpStrObjTail t, x.toNat < 0x80 := by
  induction t with
  | nil =>
    intro x hx
    rw [show dumpStrObjTail [] = ['\x7d'] from rfl, List.mem_singleton] at hx
    subst hx
    decide
  | cons p t ih =>
    intro x hx
    rw [show dumpStrObjTail (p :: t) =
        (',' :: ' ' :: dumpPair p) ++ dumpStrObjTail t from rfl] at hx
    rcases List.mem_append.mp hx with h | h
    · rcases List.mem_cons.mp h with h2 | h2
      · subst h2; decide
      rcases List.mem_cons.mp h2 with h3 | h3
      · subst h3; decide
      exact dumpPair_ascii p x h3
    · exact ih x h

theorem dumpStrObj_ascii (l : List (String × String)) : ∀ x ∈ dumpStrObj l, x.toNat < 0x80 := by
  cases l with
  | nil =>
    intro x hx
    rw [show dumpStrObj [] = ['\x7b', '\x7d'] from rfl] at hx
    rcases List.mem_cons.mp hx with h | h
    · subst h; decide
    rw [List.mem_singleton] at h
    subst h
    decide
  | cons p t =>
    intro x hx
    rw [show dumpStrObj (p :: t) = ('\x7b' :: dumpPair p) ++ dumpStrObjTail t from rfl] at hx
    rcases List.mem_append.mp hx with h | h
    · rcases List.mem_cons.mp h with h2 | h2
      · subst h2; decide
      exact dumpPair_ascii p x h2
    · exact dumpStrObjTail_ascii t x h

theorem dumpsEnvelope_ascii (e : Envelope) : ∀ x ∈ dumpsEnvelope e, x.toNat < 0x80 := by
  intro x hx
  have hk1 : ∀ y ∈ "\"command\": ".data, y.toNat < 0x80 := by decide
  have hk2 : ∀ y ∈ ", \"args\": ".data, y.toNat < 0x80 := by decide
  have hk3 : ∀ y ∈ ", \"kwargs\": ".data, y.toNat < 0x80 := by decide
  unfold dumpsEnvelope at hx
  rcases List.mem_cons.mp hx with h | h
  · subst h; decide
  rcases List.mem_append.mp h with h | h
  · rcases List.mem_append.mp h with h | h
    · rcases List.mem_append.mp h with h | h
      · rcases List.mem_append.mp h with h | h
        · rcases List.mem_append.mp h with h | h
          · rcases List.mem_append.mp h with h | h
            · exact hk1 x h
            · exact dumpJString_ascii e.name x h
          · exact hk2 x h
        · exact dumpStrList_ascii e.args x h
      · exact hk3 x h
    · exact dumpStrObj_ascii e.kwargs x h
  · rw [List.mem_singleton] at h
    subst h
    decide

theorem utf8Encode_ascii (cs : List Char) :
    (∀ x ∈ cs, x.toNat < 0x80) → utf8Encode cs = cs.map Char.toNat := by
  induction cs with
  | nil => intro _; rfl
  | cons c t ih =>
    intro h
    have hc := h c (List.mem_cons_self c t)
    have e : utf8EncodeChar c = [c.toNat] := by
      simp [utf8EncodeChar, hc]
    have ht := ih (fun x hx => h x (List.mem_cons_of_mem c hx))
    show utf8EncodeChar c ++ utf8Encode t = c.toNat :: t.map Char.toNat
    rw [e, ht]
    rfl

theorem utf8DecodeAux_ascii (cs : List Char) :
    ∀ f, cs.length ≤ f → (∀ x ∈ cs, x.toNat < 0x80) →
      utf8DecodeAux f (cs.map Char.toNat) = some cs := by
  induction cs with
  | nil =>
    intro f _ _
    cases f <;> rfl
  | cons c t ih =>
    intro f hf hasc
    cases f with
    | zero => exact absurd hf (by simp)
    | succ f =>
      have hc := hasc c (List.mem_cons_self c t)
      have ht := ih f (by simp only [List.length_cons] at hf; omega)
        (fun x hx => hasc x (List.mem_cons_of_mem c hx))
      simp [utf8DecodeAux, hc, ht, Char.ofNat_toNat]

theorem utf8_round_ascii (cs : List Char) (h : ∀ x ∈ cs, x.toNat < 0x80) :
    utf8Decode (utf8Encode cs) = some cs := by
  rw [utf8Encode_ascii cs h]
  unfold utf8Decode
  rw [List.length_map]
  exact utf8DecodeAux_ascii cs cs.length le_rfl h

/-- Claim C7: the envelope round trip.  Serializing any command envelope —
string name, list of string positional arguments, string-to-string keyword
mapping — to bytes via `json.dumps(...).encode("utf-8")` and deserializing
those bytes back yields the original envelope. -/
theorem envelope_round_trip (e : Envelope) :
    deserializeEnvelope (serializeEnvelope e) = some e := by
  unfold serializeEnvelope deserializeEnvelope
  rw [utf8_round_ascii (dumpsEnvelope e) (dumpsEnvelope_ascii e)]
  exact parseEnvelope_dumps e
